import Mathlib

/-!
Verification of the pipeline-execution engine of `CodebaseExplainer`
(`backend/app/flow.py`, `backend/app/services/nodes.py`,
`backend/app/services/llm_service.py`) against its natural-language
specification.

The embedding is shallow: Python dicts over string keys become ordered
association lists with insert-or-replace semantics (Python 3.7+ dicts
preserve insertion order, and assignment to an existing key keeps its
position), exceptions become `Except`, and the unbounded `while` loop of
`Flow.run` is given an explicit fuel argument that bounds the number of
iterations (running out of fuel returns the state reached so far; every
claim below is about terminating runs, where enough fuel is supplied).
Side effects relevant to the claims (number of `exec` calls, number of
`time.sleep` calls, phase-invocation order, provider calls) are recorded
in explicit trace fields.
-/

/-- Python dict assignment `d[k] = v`: replace the value at `k` in place if
`k` is present (keeping its position, as Python dicts do), otherwise append
the new binding at the end. -/
def dictSet {V : Type} : List (String × V) → String → V → List (String × V)
  | [], k, v => [(k, v)]
  | (k0, v0) :: rest, k, v =>
    if k0 = k then (k0, v) :: rest else (k0, v0) :: dictSet rest k v

/-- Python `k in d` / `d[k]` lookup on the ordered association list. -/
def dictLookup {V : Type} : List (String × V) → String → Option V
  | [], _ => none
  | (k0, v0) :: rest, k => if k0 = k then some v0 else dictLookup rest k

/-- Python `d.update(params)`: assign every binding of `params`, in order,
into `d`. -/
def dictUpdate {V : Type} (d : List (String × V)) (params : List (String × V)) :
    List (String × V) :=
  params.foldl (fun acc kv => dictSet acc kv.fst kv.snd) d

/-!
## Retrying node (`nodes.py`, class `Node`)

`Node._exec` runs `for self.cur_retry in range(self.max_retries)`: each
iteration calls `self.exec(prep_res)` and returns its value on success; on
an exception it calls `self.exec_fallback(prep_res, e)` and returns its
value when `self.cur_retry == self.max_retries - 1`, otherwise it sleeps
`self.wait` seconds when `self.wait > 0` and continues.  Falling off the
end of the loop (only possible when `max_retries = 0`) makes the Python
function return `None`.

`exec` is modelled as a function of the 0-based attempt index (attempts
may observe a changing external world) and the prep result, yielding
`Except ε α`; `exec_fallback` may return a value or re-raise.
-/

/-- A retrying node: the fields of `Node.__init__` plus the behaviour of its
overridable `exec` / `exec_fallback` methods. -/
structure Node (π ε α : Type) where
  max_retries : Nat
  wait : Nat
  exec : Nat → π → Except ε α
  exec_fallback : π → ε → Except ε α

/-- Observable outcome of one `Node._exec` call.  `result` is
`Except.ok (some a)` when Python returns the value `a`,
`Except.ok none` when the Python function falls off the loop and returns
`None`, and `Except.error e` when an exception propagates.  `execCalls`,
`fallbackCalls` and `sleeps` count the calls to `exec`, `exec_fallback`
and `time.sleep`; `fallbackArg` records the arguments passed to
`exec_fallback`, when it was called. -/
structure ExecTrace (π ε α : Type) where
  result : Except ε (Option α)
  execCalls : Nat
  fallbackCalls : Nat
  sleeps : Nat
  fallbackArg : Option (π × ε)

/-- The remainder of the retry loop of `Node._exec`, starting at iteration
`i` with `f` iterations left (the loop as a whole runs `i` from `0` to
`max_retries - 1`, so it is entered with `i = 0`, `f = max_retries`, and
the invariant `i + f = max_retries` holds throughout). -/
def Node.execAttempt {π ε α : Type} (n : Node π ε α) (p : π) : Nat → Nat → ExecTrace π ε α
  | _, 0 => ⟨Except.ok none, 0, 0, 0, none⟩
  | i, f + 1 =>
    match n.exec i p with
    | Except.ok a => ⟨Except.ok (some a), 1, 0, 0, none⟩
    | Except.error e =>
      if i = n.max_retries - 1 then
        match n.exec_fallback p e with
        | Except.ok a => ⟨Except.ok (some a), 1, 1, 0, some (p, e)⟩
        | Except.error e2 => ⟨Except.error e2, 1, 1, 0, some (p, e)⟩
      else
        let slept := if 0 < n.wait then 1 else 0
        let rest := Node.execAttempt n p (i + 1) f
        ⟨rest.result, rest.execCalls + 1, rest.fallbackCalls, rest.sleeps + slept,
          rest.fallbackArg⟩

/-- `Node._exec(prep_res)`: run the retry loop from its first iteration. -/
def Node.execRetry {π ε α : Type} (n : Node π ε α) (p : π) : ExecTrace π ε α :=
  Node.execAttempt n p 0 n.max_retries

/-!
## Pipeline driver (`flow.py`, class `Flow`) and its nodes (`nodes.py`,
class `BaseNode`)

Nodes are identified by natural numbers and a pipeline carries a total map
`nodes : Nat -> BaseNode ...` from identifiers to node data, so that the
successor table can reference nodes in an arbitrary graph.  A node's
lifecycle methods are modelled as pure state-passing functions over the
shared context `List (String × V)`:
`prep : ctx -> ctx × prepResult` (the Python method mutates `shared` and
returns the prep result), `exec : prepResult -> execResult` (this stands
for `_exec`, i.e. the retry-wrapped `exec` whose internals are analysed
separately above), and
`post : ctx -> prepResult -> execResult -> ctx × postResult`.

A successor-table key is either a plain string label (everything
`BaseNode.next` can install, since its `action` parameter is a string) or,
as `Flow.run` defensively allows, a callable predicate over the post
result (`callable(action)`).
-/

/-- A key of the `successors` dict: a plain string label or a callable
predicate over the post result (the `callable(action)` branch of
`Flow.run`). -/
inductive ActionKey (ρ : Type) where
  | label : String → ActionKey ρ
  | pred : (ρ → Bool) → ActionKey ρ

/-- Python equality between a successor key and the string `action` passed
to `BaseNode.next`: a callable key is never equal to a string. -/
def ActionKey.matchesLabel {ρ : Type} : ActionKey ρ → String → Bool
  | ActionKey.label s, a => s = a
  | ActionKey.pred _, _ => false

/-- The data of a `BaseNode`: its `params`, its ordered `successors` dict
(keys to node identifiers), and its three lifecycle methods. -/
structure BaseNode (V π χ ρ : Type) where
  params : List (String × V)
  successors : List (ActionKey ρ × Nat)
  prep : List (String × V) → List (String × V) × π
  exec : π → χ
  post : List (String × V) → π → χ → List (String × V) × ρ

/-- `action in self.successors`: is some key of the dict equal (as a
Python value) to the string `action`?  This is exactly the condition under
which `BaseNode.next` emits its `warnings.warn`. -/
def succWarn {ρ : Type} (succ : List (ActionKey ρ × Nat)) (action : String) : Bool :=
  succ.any (fun kv => kv.fst.matchesLabel action)

/-- `self.successors[action] = node`: replace the value at the key equal to
`action` in place, or append a fresh `(label action, node)` binding. -/
def succSet {ρ : Type} : List (ActionKey ρ × Nat) → String → Nat → List (ActionKey ρ × Nat)
  | [], action, nd => [(ActionKey.label action, nd)]
  | (k, v) :: rest, action, nd =>
    if k.matchesLabel action then (k, nd) :: rest else (k, v) :: succSet rest action nd

/-- Dict lookup `self.successors[action]` by a string key. -/
def succLookup {ρ : Type} : List (ActionKey ρ × Nat) → String → Option Nat
  | [], _ => none
  | (k, v) :: rest, action =>
    if k.matchesLabel action then some v else succLookup rest action

/-- `BaseNode.next(node, action)`: warn when `action` is already a key,
then assign `successors[action] = node`.  Returns the updated node data and
whether the warning was emitted. -/
def BaseNode.next {V π χ ρ : Type} (b : BaseNode V π χ ρ) (nd : Nat) (action : String) :
    BaseNode V π χ ρ × Bool :=
  ({ b with successors := succSet b.successors action nd }, succWarn b.successors action)

/-- `BaseNode.__rshift__(other)`, i.e. `self >> other`: register `other`
under the implicit key `"default"`. -/
def BaseNode.rshift {V π χ ρ : Type} (b : BaseNode V π χ ρ) (nd : Nat) : BaseNode V π χ ρ :=
  (b.next nd "default").fst

/-- The successor-selection loop of `Flow.run`: iterate the
`(action, node)` pairs of the dict in order; a callable key is evaluated
against the post result and its node is taken when it returns true,
otherwise scanning continues; a non-callable key takes its node
unconditionally and stops the scan. -/
def selectNext {ρ : Type} : List (ActionKey ρ × Nat) → ρ → Option Nat
  | [], _ => none
  | (ActionKey.pred f, nd) :: rest, r =>
    if f r then some nd else selectNext rest r
  | (ActionKey.label _, nd) :: _, _ => some nd

/-- One phase invocation on a node, as recorded by the instrumented run
loop. -/
inductive PhaseEvent where
  | prep : Nat → PhaseEvent
  | exec : Nat → PhaseEvent
  | post : Nat → PhaseEvent
deriving DecidableEq

/-- The mutable state threaded through the `while` loop of `Flow.run`,
plus the trace of phase invocations. -/
structure RunState (V ρ : Type) where
  shared : List (String × V)
  history : List Nat
  result : Option ρ
  trace : List PhaseEvent

namespace App

/-- The `Flow` object: the node map, `self.start`, `self.current_node`,
`self.shared_data` and `self.history`.  (It lives in the `App` namespace,
mirroring the `app` package of the source, so that it does not clash with
the unrelated `Flow` of Mathlib.) -/
structure Flow (V π χ ρ : Type) where
  nodes : Nat → BaseNode V π χ ρ
  start : Nat
  current_node : Nat
  shared_data : List (String × V)
  history : List Nat

/-- `Flow.__init__(start)`: `current_node = start`, empty `shared_data`,
empty `history`. -/
def Flow.init {V π χ ρ : Type} (nodes : Nat → BaseNode V π χ ρ) (start : Nat) :
    Flow V π χ ρ :=
  ⟨nodes, start, start, [], []⟩

/-- The body of `while current:` in `Flow.run`, with explicit fuel.  Each
iteration appends `current` to the history, calls `current.prep(shared)`
(its return value is discarded), then `current._run(shared)` — which calls
`prep` a second time, then `_exec` on that prep result, then `post` — and
finally scans `current.successors` with the selection rule to pick the
next node.  The post result becomes the running `result`. -/
def Flow.runLoop {V π χ ρ : Type} (nodes : Nat → BaseNode V π χ ρ) :
    Option Nat → Nat → RunState V ρ → RunState V ρ
  | none, _, st => st
  | some _, 0, st => st
  | some c, f + 1, st =>
    let nd := nodes c
    let sh1 := (nd.prep st.shared).fst
    let pr := nd.prep sh1
    let e := nd.exec pr.snd
    let po := nd.post pr.fst pr.snd e
    Flow.runLoop nodes (selectNext nd.successors po.snd) f
      ⟨po.fst, st.history ++ [c], some po.snd,
        st.trace ++ [PhaseEvent.prep c, PhaseEvent.prep c, PhaseEvent.exec c,
          PhaseEvent.post c]⟩

/-- The start of `Flow.run`: `if params: self.shared_data.update(params)`
(an empty or absent `params` is falsy and skips the update). -/
def Flow.runInit {V π χ ρ : Type} (fl : Flow V π χ ρ) (params : List (String × V)) :
    List (String × V) :=
  if params.isEmpty then fl.shared_data else dictUpdate fl.shared_data params

/-- `Flow.run(params)`: merge `params` into the shared data, then loop from
`current = self.start` — note the loop does NOT clear `self.history` and
does not touch `self.current_node`.  Returns the final `result`, the
updated `Flow` object, and the phase-invocation trace. -/
def Flow.run {V π χ ρ : Type} (fl : Flow V π χ ρ) (params : List (String × V)) (fuel : Nat) :
    Option ρ × Flow V π χ ρ × List PhaseEvent :=
  let st := Flow.runLoop fl.nodes (some fl.start) fuel
    ⟨Flow.runInit fl params, fl.history, none, []⟩
  (st.result, { fl with shared_data := st.shared, history := st.history }, st.trace)

/-- The nodes visited by one `Flow.run` call considered on its own:
the history produced by the run loop when started from an empty history. -/
def Flow.runVisits {V π χ ρ : Type} (fl : Flow V π χ ρ) (params : List (String × V))
    (fuel : Nat) : List Nat :=
  (Flow.runLoop fl.nodes (some fl.start) fuel ⟨Flow.runInit fl params, [], none, []⟩).history

/-- `Flow.reset()`: `current_node = start`, `shared_data = {}`,
`history = []`.  The node map is untouched. -/
def Flow.reset {V π χ ρ : Type} (fl : Flow V π χ ρ) : Flow V π χ ρ :=
  { fl with current_node := fl.start, shared_data := [], history := [] }

end App

/-- The phase-invocation trace generated by a list of visited nodes: for
each visited node, `prep` twice (once called directly by `Flow.run`, once
inside `_run`), then `exec`, then `post`. -/
def phaseTrace : List Nat → List PhaseEvent
  | [] => []
  | c :: rest =>
    PhaseEvent.prep c :: PhaseEvent.prep c :: PhaseEvent.exec c :: PhaseEvent.post c ::
      phaseTrace rest

/-!
## Text generation with on-disk cache (`llm_service.py`,
`LLMService.generate`)

The cache parameter stands for the parsed content of the on-disk store
`llm_cache.json`; the source's load path turns a missing or corrupt file
into an empty dict (`except: ... cache = {}` semantics), so a degraded
load is modelled by passing `[]`.  The external provider (Gemini /
Anthropic / OpenAI branch) is abstracted as a function from the prompt to
the response text.  The returned triple is the response text, the number
of provider calls performed, and the cache store as rewritten to disk
(unchanged when no write happens).
-/

/-- `LLMService.generate(prompt, use_cache)`: with caching on, load the
cache and return the stored response on a hit; otherwise call the provider,
re-load the cache and write the new entry back.  With caching off, always
call the provider. -/
def LLMService.generate (cache : List (String × String)) (provider : String → String)
    (prompt : String) (use_cache : Bool) : String × Nat × List (String × String) :=
  if use_cache then
    match dictLookup cache prompt with
    | some r => (r, 0, cache)
    | none =>
      let response := provider prompt
      (response, 1, dictSet cache prompt response)
  else
    (provider prompt, 1, cache)

/-!
## Concrete fixtures

Small concrete pipelines used by counterexamples and witnesses.
-/

/-- A trivial node over `Nat` data: no params, no successors, phases that
leave the context alone and return `0`. -/
def trivStep : BaseNode Nat Nat Nat Nat :=
  ⟨[], [], fun sh => (sh, 0), fun _ => 0, fun sh _ _ => (sh, 0)⟩

/-- A freshly constructed single-node pipeline: every identifier maps to
`trivStep` (which has no successors), started at node `0`. -/
def exFlow : App.Flow Nat Nat Nat Nat :=
  App.Flow.init (fun _ => trivStep) 0

/-- A node with one registered successor, `{"default": 1}`, used by the
overwrite-warning witness. -/
def exNode : BaseNode Nat Nat Nat Nat :=
  ⟨[], [(ActionKey.label "default", 1)], fun sh => (sh, 0), fun _ => 0, fun sh _ _ => (sh, 0)⟩

/-- A retrying node whose `exec` raises `7` on every attempt:
`max_retries = 2`, `wait = 1`. -/
def exNodeFailing : Node Nat Nat Nat :=
  ⟨2, 1, fun _ _ => Except.error 7, fun p e => Except.ok (p + e)⟩

/-- A retrying node whose `exec` raises `3` on the first attempt and
returns `9` from the second: `max_retries = 3`, `wait = 1`. -/
def exNodeRecovering : Node Nat Nat Nat :=
  ⟨3, 1, fun i _ => if i = 0 then Except.error 3 else Except.ok 9,
    fun _ e => Except.error e⟩

/-- A retrying node constructed with `max_retries = 0`. -/
def exNodeZeroRetries : Node Nat Nat Nat :=
  ⟨0, 1, fun _ _ => Except.error 5, fun _ e => Except.error e⟩

/-!
## Evaluation lemmas for the retry loop
-/

/-- One loop iteration whose `exec` succeeds returns immediately. -/
lemma execAttempt_succ_ok {π ε α : Type} (n : Node π ε α) (p : π) (i f : Nat) (a : α)
    (ha : n.exec i p = Except.ok a) :
    n.execAttempt p i (f + 1) = ⟨Except.ok (some a), 1, 0, 0, none⟩ := by
  simp [Node.execAttempt, ha]

/-- One loop iteration whose `exec` raises on the last allowed attempt goes
to the fallback. -/
lemma execAttempt_succ_fail_last {π ε α : Type} (n : Node π ε α) (p : π) (i f : Nat)
    (e : ε) (he : n.exec i p = Except.error e) (hl : i = n.max_retries - 1) :
    n.execAttempt p i (f + 1) =
      match n.exec_fallback p e with
      | Except.ok a => ⟨Except.ok (some a), 1, 1, 0, some (p, e)⟩
      | Except.error e2 => ⟨Except.error e2, 1, 1, 0, some (p, e)⟩ := by
  subst hl
  simp [Node.execAttempt, he]

/-- One loop iteration whose `exec` raises before the last allowed attempt
sleeps (when `wait > 0`) and continues with the next attempt. -/
lemma execAttempt_succ_fail_cont {π ε α : Type} (n : Node π ε α) (p : π) (i f : Nat)
    (e : ε) (he : n.exec i p = Except.error e) (hl : ¬ i = n.max_retries - 1) :
    n.execAttempt p i (f + 1) =
      ⟨(n.execAttempt p (i + 1) f).result, (n.execAttempt p (i + 1) f).execCalls + 1,
        (n.execAttempt p (i + 1) f).fallbackCalls,
        (n.execAttempt p (i + 1) f).sleeps + (if 0 < n.wait then 1 else 0),
        (n.execAttempt p (i + 1) f).fallbackArg⟩ := by
  simp [Node.execAttempt, he, hl]

/-- Retry loop with every attempt failing: from iteration `i` with `f`
iterations left, `exec` is called `f` more times, the fallback exactly
once with the exception of the final attempt, and a delay is taken only
after each non-final failed attempt. -/
lemma execAttempt_all_fail {π ε α : Type} (n : Node π ε α) (p : π) :
    ∀ f i, 1 ≤ f → i + f = n.max_retries →
      (∀ j, j < n.max_retries → ∃ e, n.exec j p = Except.error e) →
      (n.execAttempt p i f).execCalls = f ∧
      (n.execAttempt p i f).fallbackCalls = 1 ∧
      (n.execAttempt p i f).sleeps = (if 0 < n.wait then f - 1 else 0) ∧
      (∀ e, n.exec (n.max_retries - 1) p = Except.error e →
        (n.execAttempt p i f).fallbackArg = some (p, e)) := by
  intro f
  induction f with
  | zero => intro i h1 _ _; omega
  | succ f ih =>
    intro i _ hinv hfail
    obtain ⟨e, he⟩ := hfail i (by omega)
    by_cases hlast : i = n.max_retries - 1
    · have hf0 : f = 0 := by omega
      subst hf0
      rw [execAttempt_succ_fail_last n p i 0 e he hlast]
      have harg : ∀ e', n.exec (n.max_retries - 1) p = Except.error e' →
          some (p, e) = some (p, e') := by
        intro e' he'
        rw [← hlast] at he'
        rw [he] at he'
        injection he' with h2
        rw [h2]
      cases hfb : n.exec_fallback p e <;> simp_all
    · obtain ⟨ih1, ih2, ih3, ih4⟩ := ih (i + 1) (by omega) (by omega) hfail
      rw [execAttempt_succ_fail_cont n p i f e he hlast]
      refine ⟨by simp [ih1], by simp [ih2], ?_, ?_⟩
      · show (n.execAttempt p (i + 1) f).sleeps + (if 0 < n.wait then 1 else 0) = _
        rw [ih3]
        by_cases hw : 0 < n.wait <;> simp [hw]
        all_goals omega
      · intro e' he'
        show (n.execAttempt p (i + 1) f).fallbackArg = some (p, e')
        exact ih4 e' he'

/-- Retry loop with the first success at attempt `m` (0-based): from
iteration `i ≤ m`, `exec` is called `m - i + 1` more times, the successful
value is returned, no fallback runs, and a delay is taken only after each
of the `m - i` failed attempts. -/
lemma execAttempt_success {π ε α : Type} (n : Node π ε α) (p : π) (m : Nat) (a : α)
    (hm : m < n.max_retries)
    (hfail : ∀ j, j < m → ∃ e, n.exec j p = Except.error e)
    (hsucc : n.exec m p = Except.ok a) :
    ∀ f i, i + f = n.max_retries → i ≤ m →
      n.execAttempt p i f =
        ⟨Except.ok (some a), m - i + 1, 0, if 0 < n.wait then m - i else 0, none⟩ := by
  intro f
  induction f with
  | zero => intro i h1 h2; omega
  | succ f ih =>
    intro i hinv hi
    by_cases him : i = m
    · subst him
      rw [execAttempt_succ_ok n p i f a hsucc]
      simp
    · obtain ⟨e, he⟩ := hfail i (by omega)
      have hl : ¬ i = n.max_retries - 1 := by omega
      rw [execAttempt_succ_fail_cont n p i f e he hl]
      rw [ih (i + 1) (by omega) (by omega)]
      by_cases hw : 0 < n.wait <;> simp [hw]
      all_goals omega

/-!
## Claims about the retry contract (C1, C4, C10)
-/

/-- **C1.** For every `Node` with `max_retries = N` (`N ≥ 1`) whose `exec`
raises on every attempt, `_exec` invokes `exec` exactly `N` times and
`exec_fallback` exactly once, passing it the prep result and the exception
raised by the Nth `exec` attempt, with no retry delay taken after the Nth
attempt: exactly the `N - 1` inter-attempt delays happen, and only when
`wait > 0`. -/
theorem claim_C1_retry_exhaustion {π ε α : Type} (n : Node π ε α) (p : π) (N : Nat)
    (hN : 1 ≤ N) (hmax : n.max_retries = N)
    (hfail : ∀ j, j < N → ∃ e, n.exec j p = Except.error e) :
    (n.execRetry p).execCalls = N ∧
    (n.execRetry p).fallbackCalls = 1 ∧
    (n.execRetry p).sleeps = (if 0 < n.wait then N - 1 else 0) ∧
    (∀ e, n.exec (N - 1) p = Except.error e →
      (n.execRetry p).fallbackArg = some (p, e)) := by
  subst hmax
  have h := execAttempt_all_fail n p n.max_retries 0 hN (by omega) hfail
  exact ⟨h.1, h.2.1, h.2.2.1, h.2.2.2⟩

/-- Witness for C1: a node with `max_retries = 2`, `wait = 1` whose `exec`
always raises `7`; on prep result `5` it runs `exec` twice, the fallback
once with `(5, 7)`, and sleeps exactly once (between the attempts). -/
theorem claim_C1_witness :
    (exNodeFailing.execRetry 5).execCalls = 2 ∧
    (exNodeFailing.execRetry 5).fallbackCalls = 1 ∧
    (exNodeFailing.execRetry 5).sleeps = (if 0 < exNodeFailing.wait then 2 - 1 else 0) ∧
    (∀ e, exNodeFailing.exec (2 - 1) 5 = Except.error e →
      (exNodeFailing.execRetry 5).fallbackArg = some (5, e)) :=
  claim_C1_retry_exhaustion exNodeFailing 5 2 (by decide) rfl (fun _ _ => ⟨7, rfl⟩)

/-- **C4.** For every `Node` with `max_retries = N` whose `exec` raises on
the first `k - 1` attempts and succeeds on attempt `k ≤ N`, `_exec` invokes
`exec` exactly `k` times, returns the successful result, performs no retry
delay after the successful attempt (only the `k - 1` inter-attempt delays,
and only when `wait > 0`), and never invokes `exec_fallback`. -/
theorem claim_C4_retry_success {π ε α : Type} (n : Node π ε α) (p : π) (N k : Nat) (a : α)
    (hmax : n.max_retries = N) (hk1 : 1 ≤ k) (hkN : k ≤ N)
    (hfail : ∀ j, j < k - 1 → ∃ e, n.exec j p = Except.error e)
    (hsucc : n.exec (k - 1) p = Except.ok a) :
    (n.execRetry p).result = Except.ok (some a) ∧
    (n.execRetry p).execCalls = k ∧
    (n.execRetry p).sleeps = (if 0 < n.wait then k - 1 else 0) ∧
    (n.execRetry p).fallbackCalls = 0 ∧
    (n.execRetry p).fallbackArg = none := by
  subst hmax
  have h := execAttempt_success n p (k - 1) a (by omega) hfail hsucc n.max_retries 0
    (by omega) (by omega)
  have hR : n.execRetry p =
      ⟨Except.ok (some a), k - 1 + 1, 0, if 0 < n.wait then k - 1 else 0, none⟩ := by
    simpa [Node.execRetry] using h
  rw [hR]
  refine ⟨rfl, ?_, rfl, rfl, rfl⟩
  show k - 1 + 1 = k
  omega

/-- Witness for C4: a node with `max_retries = 3`, `wait = 1` whose `exec`
raises `3` on the first attempt and returns `9` from the second; on prep
result `4` it runs `exec` twice, returns `9`, sleeps once, and never runs
the fallback. -/
theorem claim_C4_witness :
    (exNodeRecovering.execRetry 4).result = Except.ok (some 9) ∧
    (exNodeRecovering.execRetry 4).execCalls = 2 ∧
    (exNodeRecovering.execRetry 4).sleeps = (if 0 < exNodeRecovering.wait then 2 - 1 else 0) ∧
    (exNodeRecovering.execRetry 4).fallbackCalls = 0 ∧
    (exNodeRecovering.execRetry 4).fallbackArg = none :=
  claim_C4_retry_success exNodeRecovering 4 3 2 9 rfl (by decide) (by decide)
    (fun j hj => ⟨3, by
      have hj0 : j = 0 := by omega
      subst hj0
      rfl⟩)
    rfl

/-- **C10.** For every `Node` constructed with `max_retries = 0`, `_exec`
returns `None` for every prep result (the `for` loop body never runs), and
neither `exec` nor `exec_fallback` is ever invoked. -/
theorem claim_C10_zero_retries {π ε α : Type} (n : Node π ε α) (p : π)
    (h : n.max_retries = 0) :
    (n.execRetry p).result = Except.ok none ∧
    (n.execRetry p).execCalls = 0 ∧
    (n.execRetry p).fallbackCalls = 0 := by
  simp [Node.execRetry, h, Node.execAttempt]

/-- Witness for C10: a node constructed with `max_retries = 0` silently
yields `None` on prep result `11` without calling `exec` or the
fallback. -/
theorem claim_C10_witness :
    (exNodeZeroRetries.execRetry 11).result = Except.ok none ∧
    (exNodeZeroRetries.execRetry 11).execCalls = 0 ∧
    (exNodeZeroRetries.execRetry 11).fallbackCalls = 0 :=
  claim_C10_zero_retries exNodeZeroRetries 11 rfl

/-!
## Claims about the transition table (C2, C8)
-/

/-- **C2.** A plain-label edge registered before a predicate edge shadows
it: when the plain-label pair is reached first, its successor is taken for
every post-result value, and — generally — nothing registered after the
first plain-label pair can influence selection, so a predicate edge
registered after a plain-label edge is never selected. -/
theorem claim_C2_label_shadows_predicate {ρ : Type} :
    (∀ (s : String) (n1 : Nat) (rest : List (ActionKey ρ × Nat)) (r : ρ),
      selectNext ((ActionKey.label s, n1) :: rest) r = some n1) ∧
    (∀ (front : List (ActionKey ρ × Nat)) (s : String) (n1 : Nat)
        (rest rest2 : List (ActionKey ρ × Nat)) (r : ρ),
      selectNext (front ++ (ActionKey.label s, n1) :: rest) r =
        selectNext (front ++ (ActionKey.label s, n1) :: rest2) r) := by
  constructor
  · intro s n1 rest r
    rfl
  · intro front s n1 rest rest2 r
    induction front with
    | nil => rfl
    | cons kv front ih =>
      obtain ⟨k, v⟩ := kv
      cases k with
      | label s2 => rfl
      | pred f =>
        by_cases hf : f r
        · simp [selectNext, hf]
        · simp [selectNext, hf, ih]

/-- **C8.** `BaseNode.next` warns exactly when the key is already present
in the successor table; after the call the key maps to the new node, every
other key maps to what it mapped to before, and the entries under other
keys are unchanged. -/
theorem claim_C8_next_overwrite {V π χ ρ : Type} (b : BaseNode V π χ ρ)
    (action : String) (nd : Nat) :
    ((b.next nd action).snd = true ↔ succLookup b.successors action ≠ none) ∧
    succLookup (b.next nd action).fst.successors action = some nd ∧
    (∀ a2, a2 ≠ action →
      succLookup (b.next nd action).fst.successors a2 = succLookup b.successors a2) ∧
    (b.next nd action).fst.successors.filter (fun kv => ! kv.fst.matchesLabel action) =
      b.successors.filter (fun kv => ! kv.fst.matchesLabel action) := by
  have hwarn : ∀ succ : List (ActionKey ρ × Nat),
      (succWarn succ action = true ↔ succLookup succ action ≠ none) := by
    intro succ
    induction succ with
    | nil => simp [succWarn, succLookup]
    | cons kv rest ih =>
      by_cases hk : kv.fst.matchesLabel action
      · simp [succWarn, succLookup, hk]
      · simpa [succWarn, succLookup, hk] using ih
  have hset : ∀ succ : List (ActionKey ρ × Nat),
      succLookup (succSet succ action nd) action = some nd := by
    intro succ
    induction succ with
    | nil => simp [succSet, succLookup, ActionKey.matchesLabel]
    | cons kv rest ih =>
      obtain ⟨k, v⟩ := kv
      by_cases hk : k.matchesLabel action
      · simp [succSet, succLookup, hk]
      · simp [succSet, succLookup, hk, ih]
  have hother : ∀ (succ : List (ActionKey ρ × Nat)) (a2 : String), a2 ≠ action →
      succLookup (succSet succ action nd) a2 = succLookup succ a2 := by
    intro succ a2 ha2
    induction succ with
    | nil =>
      have : ¬ (ActionKey.label action : ActionKey ρ).matchesLabel a2 := by
        simp [ActionKey.matchesLabel]
        exact fun h => ha2 h.symm
      simp [succSet, succLookup, this]
    | cons kv rest ih =>
      obtain ⟨k, v⟩ := kv
      by_cases hk : k.matchesLabel action
      · have hk2 : ¬ k.matchesLabel a2 := by
          cases k with
          | label s =>
            simp [ActionKey.matchesLabel] at hk ⊢
            subst hk
            exact fun h => ha2 h.symm
          | pred f => simp [ActionKey.matchesLabel]
        simp [succSet, succLookup, hk, hk2]
      · by_cases hk2 : k.matchesLabel a2
        · simp [succSet, succLookup, hk, hk2]
        · simp [succSet, succLookup, hk, hk2, ih]
  have hfilter : ∀ succ : List (ActionKey ρ × Nat),
      (succSet succ action nd).filter (fun kv => ! kv.fst.matchesLabel action) =
        succ.filter (fun kv => ! kv.fst.matchesLabel action) := by
    intro succ
    induction succ with
    | nil => simp [succSet, ActionKey.matchesLabel]
    | cons kv rest ih =>
      obtain ⟨k, v⟩ := kv
      by_cases hk : k.matchesLabel action
      · simp [succSet, hk]
      · simp [succSet, hk, ih]
  exact ⟨hwarn b.successors, hset b.successors, fun a2 ha2 => hother b.successors a2 ha2,
    hfilter b.successors⟩

/-- Witness for C8: registering node `2` under the already-present key
`"default"` of `exNode` warns and overwrites, and the absent key `"other"`
is unaffected. -/
theorem claim_C8_witness :
    ((exNode.next 2 "default").snd = true ↔ succLookup exNode.successors "default" ≠ none) ∧
    succLookup (exNode.next 2 "default").fst.successors "default" = some 2 ∧
    succLookup (exNode.next 2 "default").fst.successors "other" =
      succLookup exNode.successors "other" :=
  ⟨(claim_C8_next_overwrite exNode "default" 2).1,
    (claim_C8_next_overwrite exNode "default" 2).2.1,
    (claim_C8_next_overwrite exNode "default" 2).2.2.1 "other" (by decide)⟩

/-!
## Claim about the cached text generation (C9)
-/

/-- **C9.** If the cache store maps the verbatim prompt to a response,
`generate` with caching enabled returns that response, performs zero
provider calls, and leaves the store as it was. -/
theorem claim_C9_cache_hit (cache : List (String × String)) (provider : String → String)
    (prompt response : String) (hhit : dictLookup cache prompt = some response) :
    LLMService.generate cache provider prompt true = (response, 0, cache) := by
  simp [LLMService.generate, hhit]

/-- Witness for C9: with the store `{"p": "r"}`, `generate("p", true)`
returns `"r"` with zero provider calls, for a provider that would have
answered `"x"`. -/
theorem claim_C9_witness :
    LLMService.generate [("p", "r")] (fun _ => "x") "p" true = ("r", 0, [("p", "r")]) :=
  claim_C9_cache_hit [("p", "r")] (fun _ => "x") "p" "r" rfl

/-!
## Structure of the run loop: history and trace accumulation

`Flow.run` starts its loop from whatever `self.history` already contains;
the following lemmas separate the pre-existing history (and trace) from
the nodes visited by the run itself, and show that the phase trace of a
run is exactly `phaseTrace` of its visit list.
-/

/-- The history produced by the run loop is the initial history followed by
what the loop itself appends, and the latter does not depend on the initial
history or trace. -/
lemma runLoop_history_acc {V π χ ρ : Type} (nodes : Nat → BaseNode V π χ ρ) :
    ∀ (fuel : Nat) (cur : Option Nat) (sh : List (String × V)) (hist : List Nat)
      (res : Option ρ) (tr : List PhaseEvent),
      (App.Flow.runLoop nodes cur fuel ⟨sh, hist, res, tr⟩).history =
        hist ++ (App.Flow.runLoop nodes cur fuel ⟨sh, [], res, []⟩).history := by
  intro fuel
  induction fuel with
  | zero =>
    intro cur sh hist res tr
    cases cur <;> simp [App.Flow.runLoop]
  | succ f ih =>
    intro cur sh hist res tr
    cases cur with
    | none => simp [App.Flow.runLoop]
    | some c =>
      simp only [App.Flow.runLoop, List.nil_append]
      conv_lhs => rw [ih]
      conv_rhs => rw [ih]
      simp [List.append_assoc]

/-- Same accumulation property for the phase-invocation trace. -/
lemma runLoop_trace_acc {V π χ ρ : Type} (nodes : Nat → BaseNode V π χ ρ) :
    ∀ (fuel : Nat) (cur : Option Nat) (sh : List (String × V)) (hist : List Nat)
      (res : Option ρ) (tr : List PhaseEvent),
      (App.Flow.runLoop nodes cur fuel ⟨sh, hist, res, tr⟩).trace =
        tr ++ (App.Flow.runLoop nodes cur fuel ⟨sh, [], res, []⟩).trace := by
  intro fuel
  induction fuel with
  | zero =>
    intro cur sh hist res tr
    cases cur <;> simp [App.Flow.runLoop]
  | succ f ih =>
    intro cur sh hist res tr
    cases cur with
    | none => simp [App.Flow.runLoop]
    | some c =>
      simp only [App.Flow.runLoop, List.nil_append]
      conv_lhs => rw [ih]
      conv_rhs => rw [ih]
      simp [List.append_assoc]

/-- A run's phase trace is exactly the `phaseTrace` of the nodes it
visits: for each visited node, `prep` twice, then `exec`, then `post`. -/
lemma runLoop_trace_phase {V π χ ρ : Type} (nodes : Nat → BaseNode V π χ ρ) :
    ∀ (fuel : Nat) (cur : Option Nat) (sh : List (String × V)) (res : Option ρ),
      (App.Flow.runLoop nodes cur fuel ⟨sh, [], res, []⟩).trace =
        phaseTrace (App.Flow.runLoop nodes cur fuel ⟨sh, [], res, []⟩).history := by
  intro fuel
  induction fuel with
  | zero =>
    intro cur sh res
    cases cur <;> simp [App.Flow.runLoop, phaseTrace]
  | succ f ih =>
    intro cur sh res
    cases cur with
    | none => simp [App.Flow.runLoop, phaseTrace]
    | some c =>
      simp only [App.Flow.runLoop, List.nil_append]
      rw [runLoop_trace_acc nodes, runLoop_history_acc nodes, ih]
      simp [phaseTrace]

/-!
## Claims about the driver loop (C3, C6, C7)
-/

/-- **C3, counterexample.** The claim says each visited step's `prepare`
phase is invoked exactly once.  In the code, `Flow.run` calls
`current.prep(self.shared_data)` and then `current._run(self.shared_data)`,
and `_run` calls `prep` again — so on the single-node pipeline `exFlow`
the phase trace of one run contains two `prep` invocations of node `0`,
not one. -/
theorem claim_C3_counterexample :
    (exFlow.run [] 2).2.2 =
      [PhaseEvent.prep 0, PhaseEvent.prep 0, PhaseEvent.exec 0, PhaseEvent.post 0] ∧
    ¬ ((exFlow.run [] 2).2.2.count (PhaseEvent.prep 0) = 1) := by
  constructor
  · rfl
  · decide

/-- **C3, amended.** For every step visited during a run, the driver
invokes the step's `prep` exactly twice (once directly, once inside
`_run`), then the retry-wrapped `exec`, then `post`, in that order, with
the shared context threaded into both `prep` invocations and into `post`:
the phase trace of any run is exactly `phaseTrace` of its visit list. -/
theorem claim_C3_amended_phase_trace {V π χ ρ : Type} (fl : App.Flow V π χ ρ)
    (params : List (String × V)) (fuel : Nat) :
    (fl.run params fuel).2.2 = phaseTrace (fl.runVisits params fuel) := by
  have h1 := runLoop_trace_acc fl.nodes fuel (some fl.start) (App.Flow.runInit fl params)
    fl.history none []
  have h2 := runLoop_trace_phase fl.nodes fuel (some fl.start) (App.Flow.runInit fl params)
    none
  simp [App.Flow.run, App.Flow.runVisits, h1, h2]

/-- **C6, counterexample.** The claim says every `run` begins by clearing
`visitedHistory`, so that after any run it contains exactly that run's
steps.  In the code `Flow.run` never clears `self.history`: running the
single-node pipeline `exFlow` twice leaves a history `[0, 0]`, while the
second run on its own (same driver state but an emptied history) visits
only `[0]`. -/
theorem claim_C6_counterexample :
    ((exFlow.run [] 2).2.1.run [] 2).2.1.history = [0, 0] ∧
    ({ (exFlow.run [] 2).2.1 with history := [] }.run [] 2).2.1.history = [0] ∧
    ¬ ([0, 0] = ([0] : List Nat)) := by
  refine ⟨by decide, by decide, by decide⟩

/-- **C6, amended.** Every `run` begins its traversal at `startStep`, but
it does not clear `visitedHistory`: it appends the steps visited by this
run to whatever history was already recorded, so after a second run
without an intervening reset the history contains both runs' steps. -/
theorem claim_C6_amended_history_accumulates {V π χ ρ : Type} (fl : App.Flow V π χ ρ)
    (params : List (String × V)) (fuel : Nat) :
    (fl.run params fuel).2.1.history = fl.history ++ fl.runVisits params fuel ∧
    (fl.runVisits params (fuel + 1)).head? = some fl.start := by
  constructor
  · have h := runLoop_history_acc fl.nodes fuel (some fl.start)
      (App.Flow.runInit fl params) fl.history none []
    simpa [App.Flow.run, App.Flow.runVisits] using h
  · show (App.Flow.runLoop fl.nodes (some fl.start) (fuel + 1)
      ⟨App.Flow.runInit fl params, [], none, []⟩).history.head? = some fl.start
    simp only [App.Flow.runLoop, List.nil_append]
    rw [runLoop_history_acc fl.nodes]
    simp

/-- **C7.** `reset()` sets `current_node` to `start`, empties
`shared_data`, and clears `history`, while leaving the node map — and with
it every step's `params` and `successors` — unchanged; a subsequent run
with empty params starts from a shared context in which no key (in
particular no key written by the previous run) is present. -/
theorem claim_C7_reset_frame {V π χ ρ : Type} (fl : App.Flow V π χ ρ) :
    fl.reset.current_node = fl.start ∧
    fl.reset.shared_data = [] ∧
    fl.reset.history = [] ∧
    fl.reset.nodes = fl.nodes ∧
    fl.reset.start = fl.start ∧
    App.Flow.runInit fl.reset [] = [] ∧
    (∀ k, dictLookup (App.Flow.runInit fl.reset []) k = none) :=
  ⟨rfl, rfl, rfl, rfl, rfl, rfl, fun _ => rfl⟩

/-!
## Claim about a three-step linear pipeline (C5)

Node identifiers `0`, `1`, `2` play the roles of `A`, `B`, `C`.  Each node
is freshly constructed (empty params, empty successor table) from
arbitrary phase behaviour, and wired with bare `>>` edges only:
`A >> B` and `B >> C`.
-/

/-- A freshly constructed node (`BaseNode.__init__`: empty `params`, empty
`successors`) with the given phase behaviour. -/
def freshNode {V π χ ρ : Type} (prep : List (String × V) → List (String × V) × π)
    (exec : π → χ) (post : List (String × V) → π → χ → List (String × V) × ρ) :
    BaseNode V π χ ρ :=
  ⟨[], [], prep, exec, post⟩

/-- The three-step linear pipeline `A >> B >> C` over fresh nodes with the
given phase behaviours, driven from `A`. -/
def linFlow {V π χ ρ : Type}
    (prepA : List (String × V) → List (String × V) × π) (execA : π → χ)
    (postA : List (String × V) → π → χ → List (String × V) × ρ)
    (prepB : List (String × V) → List (String × V) × π) (execB : π → χ)
    (postB : List (String × V) → π → χ → List (String × V) × ρ)
    (prepC : List (String × V) → List (String × V) × π) (execC : π → χ)
    (postC : List (String × V) → π → χ → List (String × V) × ρ) :
    App.Flow V π χ ρ :=
  App.Flow.init
    (fun i =>
      if i = 0 then (freshNode prepA execA postA).rshift 1
      else if i = 1 then (freshNode prepB execB postB).rshift 2
      else freshNode prepC execC postC)
    0

/-- The effect of one driver iteration on the shared context, paired with
the step's post result: `prep` twice (the driver's direct call, whose
return value is discarded, then the one inside `_run`), `exec` on the
second prep result, `post` on the context as left by the preps. -/
def stepThread {V π χ ρ : Type} (nd : BaseNode V π χ ρ) (sh : List (String × V)) :
    List (String × V) × ρ :=
  let sh1 := (nd.prep sh).fst
  let pr := nd.prep sh1
  let e := nd.exec pr.snd
  nd.post pr.fst pr.snd e

/-- The run loop is inert once no successor was selected, whatever fuel
is left. -/
lemma runLoop_none {V π χ ρ : Type} (nodes : Nat → BaseNode V π χ ρ) (fuel : Nat)
    (st : RunState V ρ) : App.Flow.runLoop nodes none fuel st = st := by
  cases fuel <;> rfl

/-- One unfolding step of the run loop on a current node. -/
lemma runLoop_succ {V π χ ρ : Type} (nodes : Nat → BaseNode V π χ ρ) (c f : Nat)
    (st : RunState V ρ) :
    App.Flow.runLoop nodes (some c) (f + 1) st =
      App.Flow.runLoop nodes
        (selectNext (nodes c).successors (stepThread (nodes c) st.shared).snd) f
        ⟨(stepThread (nodes c) st.shared).fst, st.history ++ [c],
          some (stepThread (nodes c) st.shared).snd,
          st.trace ++ [PhaseEvent.prep c, PhaseEvent.prep c, PhaseEvent.exec c,
            PhaseEvent.post c]⟩ := rfl

/-- **C5.** For every freshly constructed three-step linear pipeline
`A >> B >> C` (bare default edges only) and any run parameters, `run`
visits exactly `[A, B, C]` in that order, afterwards `visitedHistory`
equals `[A, B, C]`, and the returned value is C's `post` result — the
second component of threading the shared context through A, then B, then
C. -/
theorem claim_C5_linear_pipeline {V π χ ρ : Type}
    (prepA : List (String × V) → List (String × V) × π) (execA : π → χ)
    (postA : List (String × V) → π → χ → List (String × V) × ρ)
    (prepB : List (String × V) → List (String × V) × π) (execB : π → χ)
    (postB : List (String × V) → π → χ → List (String × V) × ρ)
    (prepC : List (String × V) → List (String × V) × π) (execC : π → χ)
    (postC : List (String × V) → π → χ → List (String × V) × ρ)
    (params : List (String × V)) (fuel : Nat) :
    ((linFlow prepA execA postA prepB execB postB prepC execC postC).run params
        (fuel + 3)).2.1.history = [0, 1, 2] ∧
    ((linFlow prepA execA postA prepB execB postB prepC execC postC).run params
        (fuel + 3)).1 =
      some (stepThread (freshNode prepC execC postC)
        (stepThread ((freshNode prepB execB postB).rshift 2)
          (stepThread ((freshNode prepA execA postA).rshift 1)
            (App.Flow.runInit
              (linFlow prepA execA postA prepB execB postB prepC execC postC)
              params)).fst).fst).snd := by
  have h3 : fuel + 3 = (fuel + 2) + 1 := rfl
  have h2 : fuel + 2 = (fuel + 1) + 1 := rfl
  constructor <;>
  · simp only [App.Flow.run, linFlow, App.Flow.init]
    rw [h3, runLoop_succ, h2]
    simp [runLoop_succ, runLoop_none, freshNode, BaseNode.rshift, BaseNode.next, succSet,
      selectNext, stepThread]
